import Mathlib

/-!
Verification of the icon-preview generator (`icon-preview.py`).

Filenames and path fragments are modelled as `List Char` (Python `str`), so
that the string-splitting done by the classifier can be reasoned about by
structural induction.  Fallible operations (Python exceptions) are modelled
with `Option`/`Except`.  The filesystem and the Jinja2 engine are modelled
as explicit parameters of the embedded `main` (`World` below).
-/

namespace IconPreview

/-- Models `os.EX_OK`. -/
def EX_OK : Nat := 0

/-- Models `os.EX_DATAERR` (value 65 on POSIX). -/
def EX_DATAERR : Nat := 65

/-- Models `DEFAULT_ELEMENTS_PER_ROW = 3`. -/
def DEFAULT_ELEMENTS_PER_ROW : Nat := 3

/-- Models `ICON_GROUP_ORDER = ['small', 'medium', 'large', 'cover', 'notification']`. -/
def ICON_GROUP_ORDER : List String :=
  ["small", "medium", "large", "cover", "notification"]

/-- Models the dict literal `ICON_GROUP_MARKS`; a Python dict iterates its
keys in insertion order, so it is embedded as an association list in the
order of the literal. -/
def ICON_GROUP_MARKS : List (List Char × String) :=
  [("l".toList, "large"),
   ("s".toList, "small"),
   ("m".toList, "medium"),
   ("cover".toList, "cover"),
   ("lock".toList, "notification")]

/-- Models the namedtuple `IconDetails(name, group, relpath)`. -/
structure IconDetails where
  name : List Char
  group : String
  relpath : List Char
deriving Repr, DecidableEq

/-- Models Python `s.split('-')` (split on every occurrence of `'-'`).
`''.split('-') = ['']`, `'a-b-c'.split('-') = ['a','b','c']`. -/
def splitDash : List Char → List (List Char)
  | [] => [[]]
  | c :: cs =>
    if c = '-' then [] :: splitDash cs
    else
      match splitDash cs with
      | [] => [[c]]
      | piece :: pieces => (c :: piece) :: pieces

/-- Models `ICON_GROUP_MARKS.get(icon_name.split('-')[1], 'unknown')`.
`none` models the `IndexError` raised by `split('-')[1]` when the split
result has no element at index 1 (base name without a `'-'`). -/
def classify (icon_name : List Char) : Option String :=
  match splitDash icon_name with
  | _ :: tok :: _ => some ((ICON_GROUP_MARKS.lookup tok).getD "unknown")
  | _ => none

/-- Models `fname.lower().endswith('.svg')` (ASCII lowering suffices for the
constant suffix `.svg`). -/
def isSvgName (fname : List Char) : Bool :=
  List.isSuffixOf (".svg".toList) (fname.map Char.toLower)

/-- Models `os.path.basename`: the part after the last path separator. -/
def basenameOf (fname : List Char) : List Char :=
  (fname.reverse.takeWhile (fun c => c ≠ '/')).reverse

/-- Models `s.rsplit('.', 1)[0]`: everything before the last `'.'` when one
is present, otherwise the whole string. -/
def stripExt (s : List Char) : List Char :=
  if '.' ∈ s then ((s.reverse.dropWhile (fun c => c ≠ '.')).tail).reverse else s

/-- The `icons` dict of `get_icons`: group name to accumulated records.  A
Python dict keeps keys in insertion order, modelled as an association list
with new keys appended at the end. -/
abbrev IconIndex := List (String × List IconDetails)

/-- Models the dict update in `get_icons`:
`if group not in icons: icons[group] = []` followed by
`icons[group].append(details)`. -/
def addIcon (icons : IconIndex) (d : IconDetails) : IconIndex :=
  if icons.any (fun entry => entry.1 == d.group) then
    icons.map (fun entry => if entry.1 == d.group then (entry.1, entry.2 ++ [d]) else entry)
  else icons ++ [(d.group, [d])]

/-- One iteration of the scan loop of `get_icons`: non-`.svg` files are
skipped, a `.svg` file is classified and added.  `relpathF` models
`os.path.relpath(·, result_dir)`; `none` propagates the `IndexError`
from `classify`. -/
def processFile (relpathF : List Char → List Char) (icons : IconIndex)
    (fname : List Char) : Option IconIndex :=
  if isSvgName fname then
    match classify (stripExt (basenameOf fname)) with
    | none => none
    | some g => some (addIcon icons ⟨stripExt (basenameOf fname), g, relpathF fname⟩)
  else some icons

/-- The accumulation phase of `get_icons` over the files yielded by
`os.walk`, in discovery order. -/
def collectIcons (relpathF : List Char → List Char) :
    List (List Char) → IconIndex → Option IconIndex
  | [], icons => some icons
  | f :: fs, icons =>
    match processFile relpathF icons f with
    | none => none
    | some icons2 => collectIcons relpathF fs icons2

/-- Python string `<=` on `str`: lexicographic comparison by code point. -/
def lexLe : List Char → List Char → Bool
  | [], _ => true
  | _ :: _, [] => false
  | a :: as, b :: bs => if a = b then lexLe as bs else decide (a < b)

/-- The sort relation of `sorted(..., key=lambda item: item.name)`. -/
def nameLe (a b : IconDetails) : Prop := lexLe a.name b.name = true

instance : DecidableRel nameLe :=
  fun a b => inferInstanceAs (Decidable (lexLe a.name b.name = true))

/-- Models `sorted(icons[_group], reverse=False, key=lambda item: item.name)`:
Python's `sorted` is specified as a stable sort by the key, which is
extensionally insertion sort by the key. -/
def sortByName (recs : List IconDetails) : List IconDetails :=
  List.insertionSort nameLe recs

/-- The final loop of `get_icons` sorting every group. -/
def sortGroups (icons : IconIndex) : IconIndex :=
  icons.map (fun entry => (entry.1, sortByName entry.2))

/-- Models `get_icons(icons_path, result_dir)`: `files` is the sequence of
file paths produced by the `os.walk` loop in discovery order; `none`
models the `IndexError` escaping `get_icons`. -/
def get_icons (relpathF : List Char → List Char) (files : List (List Char)) :
    Option IconIndex :=
  (collectIcons relpathF files []).map sortGroups

/-- The four boolean CLI flags. -/
structure Flags where
  small : Bool
  medium : Bool
  large : Bool
  cover : Bool
deriving Repr, DecidableEq

/-- Models `getattr(flags, group, False)` for the group names used in
`get_groups`. -/
def getFlag (flags : Flags) (group : String) : Bool :=
  if group == "small" then flags.small
  else if group == "medium" then flags.medium
  else if group == "large" then flags.large
  else if group == "cover" then flags.cover
  else false

/-- Models `get_groups`: the requested groups if any flag is set, otherwise
`list(ICON_GROUP_MARKS.values())`. -/
def get_groups (flags : Flags) : List String :=
  let suggested := (["small", "medium", "large", "cover"]).filter (fun g => getFlag flags g)
  if suggested.length ≠ 0 then suggested else ICON_GROUP_MARKS.map Prod.snd

/-- Models `cmp_groups`: compare two group names by their position in
`ICON_GROUP_ORDER`; `none` models the `ValueError` raised by `list.index`
for a name outside the list. -/
def cmp_groups (a b : String) : Option Int :=
  match ICON_GROUP_ORDER.indexOf? a, ICON_GROUP_ORDER.indexOf? b with
  | some ai, some bi => some (if bi < ai then 1 else if ai = bi then 0 else -1)
  | _, _ => none

/-- The order induced by `cmp_groups` on names present in
`ICON_GROUP_ORDER`: ascending position in the list. -/
def groupLe (a b : String) : Prop :=
  ICON_GROUP_ORDER.indexOf a ≤ ICON_GROUP_ORDER.indexOf b

instance : DecidableRel groupLe :=
  fun a b => inferInstanceAs (Decidable (ICON_GROUP_ORDER.indexOf a ≤ ICON_GROUP_ORDER.indexOf b))

/-- Models `icon_group_order`: `items.sort(key=cmp_to_key(cmp_groups))`, a
stable comparison sort.  `none` models the `ValueError` raised by
`cmp_groups` when an element outside `ICON_GROUP_ORDER` is compared. -/
def icon_group_order (items : List String) : Option (List String) :=
  if items.all (fun g => ICON_GROUP_ORDER.contains g) then
    some (List.insertionSort groupLe items)
  else none

/-- Models `split_by(entries, length)`: repeatedly slice off `length`
elements; with `length = 0` the slice is empty and the generator yields
nothing. -/
def split_by (n : Nat) (l : List α) : List (List α) :=
  match l with
  | [] => []
  | x :: xs =>
    if _h : n = 0 then []
    else (x :: xs).take n :: split_by n ((x :: xs).drop n)
termination_by l.length
decreasing_by
  simp only [List.length_drop, List.length_cons]
  omega

/-- How the embedded process terminates: `sys.exit(code)` or an unhandled
exception. -/
inductive Outcome where
  | exited (code : Nat)
  | uncaught (msg : String)
deriving Repr, DecidableEq

/-- Observable result of a run of `main`: termination mode, whether the
output file was created (the `open` in the `with` statement), and whether
`logger.error` was invoked. -/
structure MainResult where
  term : Outcome
  wroteOutput : Bool
  loggedError : Bool
deriving Repr, DecidableEq

/-- The environment a run of `main` interacts with: path existence (the
`fs_path_exists` argument types leave `None` for absent paths), the files
yielded by `os.walk`, `os.path.relpath(·, result_dir)`, the outcome of
`get_template`, of `template.render` and of the output I/O calls. -/
structure World where
  iconsExists : Bool
  templateExists : Bool
  files : List (List Char)
  relpathF : List Char → List Char
  templateLoad : Except String Unit
  render : IconIndex → List String → Except String String
  makedirsOk : Bool
  openOk : Bool
  writeOk : Bool

/-- Shallow embedding of `main`.  The two path checks exit with
`os.EX_DATAERR`; `get_icons` and `get_template` run before the
`try` block, so their exceptions are unhandled; `os.makedirs`, `open`,
`template.render` and `fp.write` run inside the `try` block whose handler
logs the error and exits with status 1; otherwise `sys.exit(os.EX_OK)`. -/
def mainModel (flags : Flags) (w : World) : MainResult :=
  if w.iconsExists = false then ⟨Outcome.exited EX_DATAERR, false, true⟩
  else if w.templateExists = false then ⟨Outcome.exited EX_DATAERR, false, true⟩
  else
    match get_icons w.relpathF w.files with
    | none => ⟨Outcome.uncaught "IndexError", false, false⟩
    | some icons =>
      match w.templateLoad with
      | Except.error e => ⟨Outcome.uncaught e, false, false⟩
      | Except.ok _ =>
        if w.makedirsOk = false then ⟨Outcome.exited 1, false, true⟩
        else if w.openOk = false then ⟨Outcome.exited 1, false, true⟩
        else
          match w.render icons (get_groups flags) with
          | Except.error _ => ⟨Outcome.exited 1, true, true⟩
          | Except.ok _ =>
            if w.writeOk = false then ⟨Outcome.exited 1, true, true⟩
            else ⟨Outcome.exited EX_OK, true, false⟩

/-- Spec-side phrasing of the extraction step of the classifier: the token
following the first `'-'` delimiter of the base name. -/
def tokenAfterFirstDash (name : List Char) : List Char :=
  ((name.dropWhile (fun c => c ≠ '-')).tail).takeWhile (fun c => c ≠ '-')

/-- Well-formedness of the accumulated index: no key maps to an empty list
and every record sits under its own group. -/
def IndexWF (icons : IconIndex) : Prop :=
  ∀ g recs, (g, recs) ∈ icons → recs ≠ [] ∧ ∀ r ∈ recs, r.group = g

/-- A run environment in which both paths exist, the scan finds `a-s.svg`,
the template loads, but rendering fails. -/
def renderFailWorld : World :=
  ⟨true, true, [String.toList "a-s.svg"], fun q => q, Except.ok (),
    fun _ _ => Except.error "TemplateError", true, true, true⟩

/-- The index `get_icons` builds for the scan of `renderFailWorld`. -/
def renderFailIcons : IconIndex :=
  [("small", [⟨String.toList "a-s", "small", String.toList "a-s.svg"⟩])]

/-! ### Structure of `splitDash` -/

theorem splitDash_ne_nil : ∀ s : List Char, splitDash s ≠ []
  | [] => by simp [splitDash]
  | c :: cs => by
    unfold splitDash
    by_cases hc : c = '-'
    · simp [hc]
    · simp only [if_neg hc]
      cases h : splitDash cs <;> simp

theorem splitDash_no_dash {s : List Char} (h : '-' ∉ s) : splitDash s = [s] := by
  induction s with
  | nil => rfl
  | cons c cs ih =>
    have hc : ¬c = '-' := by intro e; exact h (by simp [e])
    have hcs : '-' ∉ cs := fun m => h (List.mem_cons_of_mem _ m)
    simp [splitDash, hc, ih hcs]

theorem splitDash_head (s : List Char) :
    ∃ ps, splitDash s = s.takeWhile (fun c => c ≠ '-') :: ps := by
  induction s with
  | nil => exact ⟨[], rfl⟩
  | cons c cs ih =>
    by_cases hc : c = '-'
    · subst hc
      exact ⟨splitDash cs, by simp [splitDash, List.takeWhile_cons]⟩
    · obtain ⟨ps, hps⟩ := ih
      refine ⟨ps, ?_⟩
      simp [splitDash, hc, hps, List.takeWhile_cons]

theorem splitDash_of_dash {s : List Char} (h : '-' ∈ s) :
    splitDash s =
      s.takeWhile (fun c => c ≠ '-') ::
        splitDash ((s.dropWhile (fun c => c ≠ '-')).tail) := by
  induction s with
  | nil => cases h
  | cons c cs ih =>
    by_cases hc : c = '-'
    · subst hc
      simp [splitDash, List.takeWhile_cons, List.dropWhile_cons]
    · have hcs : '-' ∈ cs := by
        rcases List.mem_cons.mp h with e | m
        · exact absurd e.symm hc
        · exact m
      simp [splitDash, hc, ih hcs, List.takeWhile_cons, List.dropWhile_cons]

theorem splitDash_append {p t : List Char} (hp : '-' ∉ p) :
    splitDash (p ++ '-' :: t) = p :: splitDash t := by
  induction p with
  | nil => simp [splitDash]
  | cons c cs ih =>
    have hc : ¬c = '-' := by intro e; exact hp (by simp [e])
    have hcs : '-' ∉ cs := fun m => hp (List.mem_cons_of_mem _ m)
    simp [splitDash, hc, ih hcs]

/-! ### The lexicographic order `lexLe` -/

theorem lexLe_refl (s : List Char) : lexLe s s = true := by
  induction s with
  | nil => rfl
  | cons c cs ih => simp [lexLe, ih]

theorem lexLe_total (a b : List Char) : lexLe a b = true ∨ lexLe b a = true := by
  induction a generalizing b with
  | nil => exact Or.inl rfl
  | cons x as ih =>
    cases b with
    | nil => exact Or.inr rfl
    | cons y bs =>
      by_cases hxy : x = y
      · subst hxy
        simpa [lexLe] using ih bs
      · rcases lt_trichotomy x y with h | h | h
        · exact Or.inl (by simp [lexLe, hxy, h])
        · exact absurd h hxy
        · exact Or.inr (by simp [lexLe, Ne.symm hxy, h])

theorem lexLe_trans {a b c : List Char} (hab : lexLe a b = true)
    (hbc : lexLe b c = true) : lexLe a c = true := by
  induction a generalizing b c with
  | nil => rfl
  | cons x as ih =>
    cases b with
    | nil => simp [lexLe] at hab
    | cons y bs =>
      cases c with
      | nil => simp [lexLe] at hbc
      | cons z cs =>
        by_cases hxy : x = y <;> by_cases hyz : y = z
        · subst hxy; subst hyz
          simp only [lexLe, if_pos rfl] at hab hbc ⊢
          exact ih hab hbc
        · subst hxy
          simp only [lexLe, if_pos rfl, if_neg hyz] at hbc ⊢
          exact hbc
        · subst hyz
          simp only [lexLe, if_pos rfl, if_neg hxy] at hab ⊢
          exact hab
        · simp only [lexLe, if_neg hxy, if_neg hyz, decide_eq_true_eq] at hab hbc
          have hxz : x < z := lt_trans hab hbc
          simp [lexLe, ne_of_lt hxz, hxz]

theorem lexLe_of_not_lexLe {a b : List Char} (h : lexLe a b = false) :
    lexLe b a = true := by
  rcases lexLe_total a b with h' | h'
  · rw [h'] at h; cases h
  · exact h'

theorem ne_of_not_lexLe {a b : List Char} (h : lexLe a b = false) : a ≠ b := by
  intro e; rw [e, lexLe_refl] at h; cases h

instance : IsTotal IconDetails nameLe :=
  ⟨fun a b => lexLe_total a.name b.name⟩

instance : IsTrans IconDetails nameLe :=
  ⟨fun _ _ _ hab hbc => lexLe_trans hab hbc⟩

instance : IsTotal String groupLe :=
  ⟨fun _ _ => Nat.le_total _ _⟩

instance : IsTrans String groupLe :=
  ⟨fun _ _ _ hab hbc => Nat.le_trans hab hbc⟩

/-! ### Invariants of the icon index -/

theorem addIcon_wf {icons : IconIndex} {d : IconDetails} (h : IndexWF icons) :
    IndexWF (addIcon icons d) := by
  intro g recs hmem
  unfold addIcon at hmem
  by_cases hk : icons.any (fun entry => entry.1 == d.group)
  · rw [if_pos hk] at hmem
    obtain ⟨⟨g0, recs0⟩, hmem0, heq⟩ := List.mem_map.mp hmem
    by_cases hg0 : g0 = d.group
    · rw [if_pos (by simpa using hg0)] at heq
      injection heq with h1 h2
      subst h1
      subst h2
      refine ⟨by simp, ?_⟩
      intro r hr
      rcases List.mem_append.mp hr with hm | hm
      · exact (h _ _ hmem0).2 r hm
      · rw [List.mem_singleton.mp hm, hg0]
    · rw [if_neg (by simpa using hg0)] at heq
      injection heq with h1 h2
      subst h1
      subst h2
      exact h _ _ hmem0
  · rw [if_neg hk] at hmem
    rcases List.mem_append.mp hmem with hm | hm
    · exact h _ _ hm
    · have heq := List.mem_singleton.mp hm
      injection heq with h1 h2
      subst h1
      subst h2
      exact ⟨by simp, by simp⟩

theorem processFile_wf {relpathF : List Char → List Char} {icons out : IconIndex}
    {fname : List Char} (h : IndexWF icons)
    (hp : processFile relpathF icons fname = some out) : IndexWF out := by
  unfold processFile at hp
  by_cases hs : isSvgName fname
  · rw [if_pos hs] at hp
    cases hc : classify (stripExt (basenameOf fname)) with
    | none => rw [hc] at hp; cases hp
    | some g =>
      rw [hc] at hp
      obtain rfl := Option.some.inj hp
      exact addIcon_wf h
  · rw [if_neg hs] at hp
    obtain rfl := Option.some.inj hp
    exact h

theorem collectIcons_wf {relpathF : List Char → List Char} :
    ∀ {files : List (List Char)} {acc out : IconIndex}, IndexWF acc →
      collectIcons relpathF files acc = some out → IndexWF out
  | [], _, _, h, hc => by
    obtain rfl := Option.some.inj hc
    exact h
  | f :: fs, acc, out, h, hc => by
    unfold collectIcons at hc
    cases hp : processFile relpathF acc f with
    | none => rw [hp] at hc; cases hc
    | some acc2 =>
      rw [hp] at hc
      exact collectIcons_wf (processFile_wf h hp) hc

theorem sortGroups_wf {icons : IconIndex} (h : IndexWF icons) :
    IndexWF (sortGroups icons) := by
  intro g recs hmem
  obtain ⟨⟨g0, recs0⟩, hmem0, heq⟩ := List.mem_map.mp hmem
  injection heq with h1 h2
  subst h1
  subst h2
  obtain ⟨hne, hgrp⟩ := h g0 recs0 hmem0
  have hperm : (sortByName recs0).Perm recs0 := List.perm_insertionSort nameLe recs0
  constructor
  · intro e
    apply hne
    have := hperm.length_eq
    rw [e] at this
    exact List.eq_nil_of_length_eq_zero this.symm
  · intro r hr
    exact hgrp r ((List.mem_insertionSort nameLe).mp hr)

/-! ### Stability of the per-group sort -/

theorem filter_orderedInsert_name (n : List Char) (x : IconDetails) :
    ∀ l : List IconDetails,
      (List.orderedInsert nameLe x l).filter (fun r => r.name == n) =
        if x.name == n then x :: l.filter (fun r => r.name == n)
        else l.filter (fun r => r.name == n)
  | [] => by simp [List.filter_cons]
  | y :: ys => by
    by_cases hxy : nameLe x y
    · rw [List.orderedInsert_of_le nameLe ys hxy, List.filter_cons]
    · have hfalse : lexLe x.name y.name = false := by
        cases hb : lexLe x.name y.name
        · rfl
        · exact absurd hb hxy
      have hne : x.name ≠ y.name := ne_of_not_lexLe hfalse
      unfold List.orderedInsert
      rw [if_neg hxy, List.filter_cons, filter_orderedInsert_name n x ys]
      cases hx : (x.name == n) <;> cases hy : (y.name == n)
      · simp [List.filter_cons, hx, hy]
      · simp [List.filter_cons, hx, hy]
      · simp [List.filter_cons, hx, hy]
      · exact absurd ((eq_of_beq hx).trans (eq_of_beq hy).symm) hne

theorem filter_sortByName (n : List Char) :
    ∀ recs : List IconDetails,
      (sortByName recs).filter (fun r => r.name == n) =
        recs.filter (fun r => r.name == n)
  | [] => rfl
  | x :: xs => by
    have ih := filter_sortByName n xs
    unfold sortByName at ih ⊢
    show (List.orderedInsert nameLe x (List.insertionSort nameLe xs)).filter
        (fun r => r.name == n) = _
    rw [filter_orderedInsert_name, ih, List.filter_cons]

/-! ### Chunking -/

theorem split_by_nil (n : Nat) : split_by n ([] : List α) = [] := by
  rw [split_by]

theorem split_by_cons {n : Nat} (hn : n ≠ 0) (x : α) (xs : List α) :
    split_by n (x :: xs) = (x :: xs).take n :: split_by n ((x :: xs).drop n) := by
  rw [split_by, dif_neg hn]

theorem split_by_parts (n : Nat) (hn : 1 ≤ n) :
    ∀ (N : Nat) (l : List α), l.length ≤ N →
      (split_by n l).length = (l.length + n - 1) / n ∧
      (∀ c ∈ (split_by n l).dropLast, c.length = n) ∧
      (∀ c ∈ split_by n l, c.length ≤ n ∧ c ≠ []) ∧
      (split_by n l).flatten = l := by
  intro N
  induction N with
  | zero =>
    intro l hl
    obtain rfl : l = [] := List.eq_nil_of_length_eq_zero (Nat.le_zero.mp hl)
    refine ⟨?_, by simp [split_by_nil], by simp [split_by_nil], by simp [split_by_nil]⟩
    rw [split_by_nil]
    exact (Nat.div_eq_of_lt (by omega)).symm
  | succ N ih =>
    intro l hl
    cases l with
    | nil => exact ih [] (by simp)
    | cons x xs =>
      have hne : n ≠ 0 := by omega
      have hdl : ((x :: xs).drop n).length = (x :: xs).length - n := List.length_drop n _
      obtain ⟨ih1, ih2, ih3, ih4⟩ := ih ((x :: xs).drop n)
        (by rw [hdl]; simp only [List.length_cons] at hl ⊢; omega)
      rw [split_by_cons hne]
      refine ⟨?_, ?_, ?_, ?_⟩
      · rw [List.length_cons, ih1, hdl]
        have hL1 : 1 ≤ (x :: xs).length := by simp
        by_cases hcase : (x :: xs).length ≤ n
        · have e1 : (x :: xs).length - n = 0 := by omega
          rw [e1, Nat.div_eq_of_lt (by omega),
            Nat.div_eq_of_lt_le (by omega : 1 * n ≤ (x :: xs).length + n - 1)
              (by omega : (x :: xs).length + n - 1 < (1 + 1) * n)]
        · have e1 : (x :: xs).length - n + n - 1 = (x :: xs).length - 1 := by omega
          have e2 : (x :: xs).length + n - 1 = ((x :: xs).length - 1) + n := by omega
          rw [e1, e2, Nat.add_div_right _ (by omega : 0 < n)]
      · intro c hc
        cases hrest : split_by n ((x :: xs).drop n) with
        | nil => rw [hrest] at hc; simp at hc
        | cons r rs =>
          rw [hrest, List.dropLast_cons₂] at hc
          rcases List.mem_cons.mp hc with rfl | hm
          · have hdrop_ne : (x :: xs).drop n ≠ [] := by
              intro e
              rw [e, split_by_nil] at hrest
              cases hrest
            have hlt : n < (x :: xs).length := by
              have hpos : 0 < ((x :: xs).drop n).length := List.length_pos.mpr hdrop_ne
              omega
            rw [List.length_take]
            exact min_eq_left (le_of_lt hlt)
          · exact ih2 c (by rw [hrest]; exact hm)
      · intro c hc
        rcases List.mem_cons.mp hc with rfl | hm
        · refine ⟨by rw [List.length_take]; exact min_le_left _ _, ?_⟩
          cases n with
          | zero => exact absurd rfl hne
          | succ m => simp [List.take_cons]
        · exact ih3 c hm
      · rw [List.flatten_cons, ih4]
        exact List.take_append_drop n (x :: xs)

/-! ### Sorted permutations with antisymmetry on the elements are equal -/

theorem pairwise_perm_eq {α : Type} {r : α → α → Prop} :
    ∀ {l₁ l₂ : List α}, l₁.Perm l₂ → l₁.Pairwise r → l₂.Pairwise r →
      (∀ a ∈ l₁, ∀ b ∈ l₁, r a b → r b a → a = b) → l₁ = l₂ := by
  intro l₁
  induction l₁ with
  | nil =>
    intro l₂ hp _ _ _
    exact hp.nil_eq
  | cons a t₁ ih =>
    intro l₂ hp hs₁ hs₂ hanti
    cases l₂ with
    | nil => exact absurd hp.symm.nil_eq (List.cons_ne_nil a t₁).symm
    | cons b t₂ =>
      have hab : a = b := by
        by_cases h : a = b
        · exact h
        · have ha2 : a ∈ b :: t₂ := hp.mem_iff.mp (List.mem_cons_self a t₁)
          have hb1 : b ∈ a :: t₁ := hp.mem_iff.mpr (List.mem_cons_self b t₂)
          have ha_t2 : a ∈ t₂ := by
            rcases List.mem_cons.mp ha2 with e | m
            · exact absurd e h
            · exact m
          have hb_t1 : b ∈ t₁ := by
            rcases List.mem_cons.mp hb1 with e | m
            · exact absurd e.symm h
            · exact m
          have hr_ab : r a b := (List.pairwise_cons.mp hs₁).1 b hb_t1
          have hr_ba : r b a := (List.pairwise_cons.mp hs₂).1 a ha_t2
          exact hanti a (List.mem_cons_self a t₁) b (List.mem_cons_of_mem a hb_t1) hr_ab hr_ba
      subst hab
      have hp' : t₁.Perm t₂ := hp.cons_inv
      have heq := ih hp' (List.pairwise_cons.mp hs₁).2 (List.pairwise_cons.mp hs₂).2
        (fun a1 ha1 b1 hb1 => hanti a1 (List.mem_cons_of_mem _ ha1) b1 (List.mem_cons_of_mem _ hb1))
      rw [heq]

/-! ### The classifier on names without and with a delimiter -/

theorem classify_no_dash {s : List Char} (h : '-' ∉ s) : classify s = none := by
  unfold classify
  rw [splitDash_no_dash h]

theorem classify_token_lookup (name : List Char) (h : '-' ∈ name) :
    classify name =
      some ((ICON_GROUP_MARKS.lookup (tokenAfterFirstDash name)).getD "unknown") := by
  unfold classify
  rw [splitDash_of_dash h]
  obtain ⟨ps, hps⟩ := splitDash_head ((name.dropWhile (fun c => c ≠ '-')).tail)
  rw [hps]
  rfl

theorem classify_one_token {p t : List Char} (hp : '-' ∉ p) (ht : '-' ∉ t) :
    classify (p ++ '-' :: t) = some ((ICON_GROUP_MARKS.lookup t).getD "unknown") := by
  unfold classify
  rw [splitDash_append hp, splitDash_no_dash ht]

theorem classify_multi_token {p t r : List Char} (hp : '-' ∉ p) (ht : '-' ∉ t) :
    classify (p ++ '-' :: (t ++ '-' :: r)) =
      some ((ICON_GROUP_MARKS.lookup t).getD "unknown") := by
  unfold classify
  rw [splitDash_append hp, splitDash_append ht]

theorem collectIcons_none {relpathF : List Char → List Char} {f : List Char}
    (hsvg : isSvgName f = true) (hnodash : '-' ∉ stripExt (basenameOf f)) :
    ∀ files : List (List Char), f ∈ files →
      ∀ acc : IconIndex, collectIcons relpathF files acc = none := by
  intro files
  induction files with
  | nil => intro h; cases h
  | cons f0 fs ih =>
    intro hmem acc
    unfold collectIcons
    rcases List.mem_cons.mp hmem with rfl | hm
    · have hpf : processFile relpathF acc f = none := by
        unfold processFile
        rw [if_pos hsvg, classify_no_dash hnodash]
      rw [hpf]
    · cases hp : processFile relpathF acc f0 with
      | none => rfl
      | some acc2 => exact ih hm acc2

/-! ### Claims -/

/-- Claim C1 (counterexample): the file `app.svg` is a scanned `.svg` file
whose base name `app` contains no `'-'`, yet `get_icons` does not return
normally — `split('-')[1]` raises `IndexError`, modelled by `none`. -/
theorem c1_counterexample :
    isSvgName (String.toList "app.svg") = true ∧
    '-' ∉ stripExt (basenameOf (String.toList "app.svg")) ∧
    get_icons (fun q => q) [String.toList "app.svg"] = none := by
  refine ⟨by decide, by decide, by decide⟩

/-- Claim C1 (amended): for every scanned `.svg` file whose base name
contains no `'-'` delimiter, classification does **not** degrade to
`unknown`: `get_icons` raises an `IndexError` (modelled as `none`) and
the run crashes. -/
theorem c1_amended (relpathF : List Char → List Char) (files : List (List Char))
    (f : List Char) (hmem : f ∈ files) (hsvg : isSvgName f = true)
    (hnodash : '-' ∉ stripExt (basenameOf f)) :
    get_icons relpathF files = none := by
  unfold get_icons
  rw [collectIcons_none hsvg hnodash files hmem []]
  rfl

/-- Witness for `c1_amended` at the concrete scan `[app.svg]`. -/
theorem c1_witness :
    String.toList "app.svg" ∈ [String.toList "app.svg"] ∧
    isSvgName (String.toList "app.svg") = true ∧
    '-' ∉ stripExt (basenameOf (String.toList "app.svg")) ∧
    get_icons (fun q => q) [String.toList "app.svg"] = none :=
  ⟨by decide, by decide, by decide,
    c1_amended (fun q => q) [String.toList "app.svg"] (String.toList "app.svg")
      (by decide) (by decide) (by decide)⟩

/-- Claim C3 (counterexample): with no flag set, `get_groups` returns the
insertion order of `ICON_GROUP_MARKS.values()`, which starts with
`large`, not the canonical order starting with `small`. -/
theorem c3_counterexample :
    get_groups ⟨false, false, false, false⟩ =
      ["large", "small", "medium", "cover", "notification"] ∧
    get_groups ⟨false, false, false, false⟩ ≠
      ["small", "medium", "large", "cover", "notification"] := by
  refine ⟨by decide, by decide⟩

/-- Claim C3 (amended): for every flag combination in which none of
`--small`, `--medium`, `--large`, `--cover` is set, `get_groups` returns
the full fixed category list, but in the insertion order of the
`ICON_GROUP_MARKS` dict: `[large, small, medium, cover, notification]`. -/
theorem c3_amended (flags : Flags) (hs : flags.small = false)
    (hm : flags.medium = false) (hl : flags.large = false)
    (hc : flags.cover = false) :
    get_groups flags = ["large", "small", "medium", "cover", "notification"] := by
  obtain ⟨fs, fm, fl, fc⟩ := flags
  simp only at hs hm hl hc
  subst hs
  subst hm
  subst hl
  subst hc
  decide

/-- Witness for `c3_amended` at the all-false flag record. -/
theorem c3_witness :
    get_groups ⟨false, false, false, false⟩ =
      ["large", "small", "medium", "cover", "notification"] :=
  c3_amended ⟨false, false, false, false⟩ rfl rfl rfl rfl

/-- Claim C9 (confirmed): if the icons path or the template path does not
exist, `main` logs an error and exits with `os.EX_DATAERR` without
creating or writing any output file. -/
theorem c9_missing_path_dataerr (flags : Flags) (w : World)
    (h : w.iconsExists = false ∨ w.templateExists = false) :
    mainModel flags w = ⟨Outcome.exited EX_DATAERR, false, true⟩ := by
  unfold mainModel
  rcases h with h | h
  · simp [h]
  · by_cases hi : w.iconsExists = false
    · simp [hi]
    · simp [hi, h]

/-- Witness for `c9_missing_path_dataerr` with an absent icons path. -/
theorem c9_witness :
    mainModel ⟨false, false, false, false⟩
        ⟨false, true, [], fun q => q, Except.ok (), fun _ _ => Except.ok "", true, true, true⟩ =
      ⟨Outcome.exited EX_DATAERR, false, true⟩ :=
  c9_missing_path_dataerr ⟨false, false, false, false⟩
    ⟨false, true, [], fun q => q, Except.ok (), fun _ _ => Except.ok "", true, true, true⟩
    (Or.inl rfl)

/-- Claim C5 (confirmed): for every base name containing at least one `'-'`,
the classifier extracts the token following the first `'-'` delimiter and
maps it through the `ICON_GROUP_MARKS` lookup table, defaulting to
`unknown` for a token not in the table. -/
theorem c5_token_after_first_dash (name : List Char) (h : '-' ∈ name) :
    classify name =
      some ((ICON_GROUP_MARKS.lookup (tokenAfterFirstDash name)).getD "unknown") :=
  classify_token_lookup name h

/-- Witness for `c5_token_after_first_dash` at the base name `app-sx`. -/
theorem c5_witness :
    classify (String.toList "app-sx") =
      some ((ICON_GROUP_MARKS.lookup
        (tokenAfterFirstDash (String.toList "app-sx"))).getD "unknown") :=
  c5_token_after_first_dash (String.toList "app-sx") (by decide)

/-- Claim C4 (counterexample): `app-sx.svg` has the form `prefix-s*.svg`
(middle token `sx` begins with `s`), yet classification yields `unknown`,
not `small` — the lookup is by exact token, not by its first letter. -/
theorem c4_counterexample :
    classify (String.toList "app-sx") = some "unknown" ∧
    classify (String.toList "app-sx") ≠ some "small" := by
  refine ⟨by decide, by decide⟩

/-- Claim C4 (amended): classification maps the middle token by exact
equality: token `s` yields `small`, `m` yields `medium`, `l` yields
`large`, `cover` yields `cover`, `lock` yields `notification`, and any
middle token not equal to one of those five yields `unknown` (a token
merely beginning with `s`, `m`, `l` does not select the group). -/
theorem c4_amended (p t rest : List Char) (hp : '-' ∉ p) (ht : '-' ∉ t)
    (hrest : rest = [] ∨ ∃ r, rest = '-' :: r) :
    classify (p ++ '-' :: (String.toList "s" ++ rest)) = some "small" ∧
    classify (p ++ '-' :: (String.toList "m" ++ rest)) = some "medium" ∧
    classify (p ++ '-' :: (String.toList "l" ++ rest)) = some "large" ∧
    classify (p ++ '-' :: (String.toList "cover" ++ rest)) = some "cover" ∧
    classify (p ++ '-' :: (String.toList "lock" ++ rest)) = some "notification" ∧
    (t ≠ String.toList "s" → t ≠ String.toList "m" → t ≠ String.toList "l" →
      t ≠ String.toList "cover" → t ≠ String.toList "lock" →
      classify (p ++ '-' :: (t ++ rest)) = some "unknown") := by
  have key : ∀ u : List Char, '-' ∉ u →
      classify (p ++ '-' :: (u ++ rest)) =
        some ((ICON_GROUP_MARKS.lookup u).getD "unknown") := by
    intro u hu
    rcases hrest with rfl | ⟨r, rfl⟩
    · rw [List.append_nil]
      exact classify_one_token hp hu
    · exact classify_multi_token hp hu
  refine ⟨?_, ?_, ?_, ?_, ?_, ?_⟩
  · rw [key _ (by decide)]
    decide
  · rw [key _ (by decide)]
    decide
  · rw [key _ (by decide)]
    decide
  · rw [key _ (by decide)]
    decide
  · rw [key _ (by decide)]
    decide
  · intro h1 h2 h3 h4 h5
    rw [key t ht]
    have e1 : (t == ['l']) = false := beq_eq_false_iff_ne.mpr h3
    have e2 : (t == ['s']) = false := beq_eq_false_iff_ne.mpr h1
    have e3 : (t == ['m']) = false := beq_eq_false_iff_ne.mpr h2
    have e4 : (t == ['c', 'o', 'v', 'e', 'r']) = false := beq_eq_false_iff_ne.mpr h4
    have e5 : (t == ['l', 'o', 'c', 'k']) = false := beq_eq_false_iff_ne.mpr h5
    have hnone : ICON_GROUP_MARKS.lookup t = none := by
      simp [ICON_GROUP_MARKS, List.lookup, e1, e2, e3, e4, e5]
    rw [hnone]
    rfl

/-- Witness for `c4_amended` at prefix `app`, token `sx`, empty remainder. -/
theorem c4_witness :
    classify (String.toList "app" ++ '-' :: (String.toList "s" ++ [])) = some "small" ∧
    classify (String.toList "app" ++ '-' :: (String.toList "m" ++ [])) = some "medium" ∧
    classify (String.toList "app" ++ '-' :: (String.toList "l" ++ [])) = some "large" ∧
    classify (String.toList "app" ++ '-' :: (String.toList "cover" ++ [])) = some "cover" ∧
    classify (String.toList "app" ++ '-' :: (String.toList "lock" ++ [])) =
      some "notification" ∧
    (String.toList "sx" ≠ String.toList "s" → String.toList "sx" ≠ String.toList "m" →
      String.toList "sx" ≠ String.toList "l" → String.toList "sx" ≠ String.toList "cover" →
      String.toList "sx" ≠ String.toList "lock" →
      classify (String.toList "app" ++ '-' :: (String.toList "sx" ++ [])) =
        some "unknown") :=
  c4_amended (String.toList "app") (String.toList "sx") [] (by decide) (by decide)
    (Or.inl rfl)

/-- Claim C6 (confirmed): for every sequence `l` and chunk size `n ≥ 1`,
`split_by` yields exactly `⌈l.length / n⌉` chunks, every chunk except
possibly the last has length `n`, no chunk is longer than `n` or empty,
and concatenating the chunks reproduces `l`. -/
theorem c6_split_by_chunks (n : Nat) (l : List α) (hn : 1 ≤ n) :
    (split_by n l).length = (l.length + n - 1) / n ∧
    (∀ c ∈ (split_by n l).dropLast, c.length = n) ∧
    (∀ c ∈ split_by n l, c.length ≤ n ∧ c ≠ []) ∧
    (split_by n l).flatten = l :=
  split_by_parts n hn l.length l (le_refl _)

/-- Witness for `c6_split_by_chunks` at `n = 2` over a five-element list. -/
theorem c6_witness :
    (split_by 2 [1, 2, 3, 4, 5]).length = ([1, 2, 3, 4, 5].length + 2 - 1) / 2 ∧
    (∀ c ∈ (split_by 2 [1, 2, 3, 4, 5]).dropLast, c.length = 2) ∧
    (∀ c ∈ split_by 2 [1, 2, 3, 4, 5], c.length ≤ 2 ∧ c ≠ []) ∧
    (split_by 2 [1, 2, 3, 4, 5]).flatten = [1, 2, 3, 4, 5] :=
  c6_split_by_chunks 2 [1, 2, 3, 4, 5] (by decide)

/-- Claim C7 (confirmed): `icon_group_order` applied to any duplicate-free
list of names drawn from `ICON_GROUP_ORDER` succeeds and arranges the
elements in the fixed canonical order small, medium, large, cover,
notification — that is, it returns the canonical list filtered to the
given elements. -/
theorem c7_icon_group_order_canonical (items : List String)
    (hmem : ∀ g ∈ items, g ∈ ICON_GROUP_ORDER) (hnd : items.Nodup) :
    icon_group_order items =
      some (ICON_GROUP_ORDER.filter (fun g => decide (g ∈ items))) := by
  unfold icon_group_order
  rw [if_pos ?hall]
  case hall =>
    rw [List.all_eq_true]
    intro g hg
    simpa using hmem g hg
  congr 1
  apply pairwise_perm_eq (r := groupLe)
  · have p1 : (List.insertionSort groupLe items).Perm items :=
      List.perm_insertionSort _ _
    have p2 : (ICON_GROUP_ORDER.filter (fun g => decide (g ∈ items))).Perm items := by
      rw [List.perm_ext_iff_of_nodup (List.Nodup.filter _ (by decide)) hnd]
      intro a
      simp only [List.mem_filter, decide_eq_true_eq]
      exact ⟨fun h => h.2, fun h => ⟨hmem a h, h⟩⟩
    exact p1.trans p2.symm
  · exact List.sorted_insertionSort groupLe items
  · have hcan : ICON_GROUP_ORDER.Pairwise groupLe := by decide
    exact hcan.sublist (List.filter_sublist _)
  · intro a ha b hb hab hba
    have haC : a ∈ ICON_GROUP_ORDER := hmem a ((List.mem_insertionSort _).mp ha)
    have hbC : b ∈ ICON_GROUP_ORDER := hmem b ((List.mem_insertionSort _).mp hb)
    have key : ∀ x ∈ ICON_GROUP_ORDER, ∀ y ∈ ICON_GROUP_ORDER,
        groupLe x y → groupLe y x → x = y := by decide
    exact key a haC b hbC hab hba

/-- Witness for `c7_icon_group_order_canonical` on a shuffled subset. -/
theorem c7_witness :
    icon_group_order ["cover", "small", "notification"] =
      some (ICON_GROUP_ORDER.filter
        (fun g => decide (g ∈ ["cover", "small", "notification"]))) :=
  c7_icon_group_order_canonical ["cover", "small", "notification"]
    (by decide) (by decide)

/-- Claim C10 (confirmed): every group appearing as a key of the index
produced by `get_icons` holds at least one record, and every record stored
under a key has that key as its `group` field. -/
theorem c10_index_invariant (relpathF : List Char → List Char)
    (files : List (List Char)) (idx : IconIndex)
    (h : get_icons relpathF files = some idx) :
    ∀ g recs, (g, recs) ∈ idx → recs ≠ [] ∧ ∀ r ∈ recs, r.group = g := by
  unfold get_icons at h
  cases hc : collectIcons relpathF files [] with
  | none => rw [hc] at h; cases h
  | some raw =>
    rw [hc] at h
    obtain rfl : sortGroups raw = idx := Option.some.inj h
    exact sortGroups_wf (collectIcons_wf (fun g recs hm => absurd hm (List.not_mem_nil _)) hc)

/-- Witness for `c10_index_invariant` on a one-file scan. -/
theorem c10_witness :
    ([⟨String.toList "app-s", "small", String.toList "app-s.svg"⟩] :
        List IconDetails) ≠ [] ∧
    ∀ r ∈ ([⟨String.toList "app-s", "small", String.toList "app-s.svg"⟩] :
        List IconDetails), r.group = "small" :=
  c10_index_invariant (fun q => q) [String.toList "app-s.svg"]
    [("small", [⟨String.toList "app-s", "small", String.toList "app-s.svg"⟩])]
    (by decide) "small"
    [⟨String.toList "app-s", "small", String.toList "app-s.svg"⟩] (by decide)

/-- Claim C8 (confirmed): in the index produced by `get_icons`, each group's
record list is sorted ascending by `name` under lexicographic string
comparison, is a permutation of the records accumulated for that group in
discovery order, and for every name the records carrying that name appear
exactly as they did in discovery order (stable sort, duplicates kept). -/
theorem c8_groups_sorted_stable (relpathF : List Char → List Char)
    (files : List (List Char)) (idx : IconIndex)
    (h : get_icons relpathF files = some idx) (g : String)
    (recs : List IconDetails) (hg : (g, recs) ∈ idx) :
    recs.Pairwise nameLe ∧
    ∃ raw rawRecs, collectIcons relpathF files [] = some raw ∧
      (g, rawRecs) ∈ raw ∧ recs.Perm rawRecs ∧
      ∀ n : List Char,
        recs.filter (fun r => r.name == n) = rawRecs.filter (fun r => r.name == n) := by
  unfold get_icons at h
  cases hc : collectIcons relpathF files [] with
  | none => rw [hc] at h; cases h
  | some raw =>
    rw [hc] at h
    obtain rfl : sortGroups raw = idx := Option.some.inj h
    obtain ⟨⟨g0, recs0⟩, hmem0, heq⟩ := List.mem_map.mp hg
    injection heq with h1 h2
    subst h1
    subst h2
    exact ⟨List.sorted_insertionSort nameLe recs0, raw, recs0, rfl, hmem0,
      List.perm_insertionSort nameLe recs0, fun n => filter_sortByName n recs0⟩

/-- Witness for `c8_groups_sorted_stable` on a two-file scan discovered out
of name order. -/
theorem c8_witness :
    ([⟨String.toList "a-s", "small", String.toList "a-s.svg"⟩,
      ⟨String.toList "b-s", "small", String.toList "b-s.svg"⟩] :
        List IconDetails).Pairwise nameLe ∧
    ∃ raw rawRecs,
      collectIcons (fun q => q) [String.toList "b-s.svg", String.toList "a-s.svg"] [] =
        some raw ∧
      ("small", rawRecs) ∈ raw ∧
      ([⟨String.toList "a-s", "small", String.toList "a-s.svg"⟩,
        ⟨String.toList "b-s", "small", String.toList "b-s.svg"⟩] :
          List IconDetails).Perm rawRecs ∧
      ∀ n : List Char,
        ([⟨String.toList "a-s", "small", String.toList "a-s.svg"⟩,
          ⟨String.toList "b-s", "small", String.toList "b-s.svg"⟩] :
            List IconDetails).filter (fun r => r.name == n) =
          rawRecs.filter (fun r => r.name == n) :=
  c8_groups_sorted_stable (fun q => q)
    [String.toList "b-s.svg", String.toList "a-s.svg"]
    [("small",
      [⟨String.toList "a-s", "small", String.toList "a-s.svg"⟩,
       ⟨String.toList "b-s", "small", String.toList "b-s.svg"⟩])]
    (by decide) "small"
    [⟨String.toList "a-s", "small", String.toList "a-s.svg"⟩,
     ⟨String.toList "b-s", "small", String.toList "b-s.svg"⟩] (by decide)

/-- Claim C2 (counterexample): both paths exist, every try-block step would
succeed, but the scanned file `app.svg` makes `get_icons` raise; the raise
happens before the `try` block, so the process ends with an unhandled
exception instead of the claimed exit status 1. -/
theorem c2_counterexample :
    mainModel ⟨false, false, false, false⟩
        ⟨true, true, [String.toList "app.svg"], fun q => q, Except.ok (),
          fun _ _ => Except.ok "", true, true, true⟩ =
      ⟨Outcome.uncaught "IndexError", false, false⟩ ∧
    Outcome.uncaught "IndexError" ≠ Outcome.exited 1 := by
  refine ⟨rfl, by decide⟩

theorem mainModel_past_checks (flags : Flags) (w : World) (icons : IconIndex)
    (hi : w.iconsExists = true) (ht : w.templateExists = true)
    (hx : get_icons w.relpathF w.files = some icons)
    (hl : w.templateLoad = Except.ok ()) :
    mainModel flags w =
      if w.makedirsOk = false then ⟨Outcome.exited 1, false, true⟩
      else if w.openOk = false then ⟨Outcome.exited 1, false, true⟩
      else
        match w.render icons (get_groups flags) with
        | Except.error _ => ⟨Outcome.exited 1, true, true⟩
        | Except.ok _ =>
          if w.writeOk = false then ⟨Outcome.exited 1, true, true⟩
          else ⟨Outcome.exited EX_OK, true, false⟩ := by
  unfold mainModel
  rw [hx, hl]
  simp [hi, ht]

/-- Claim C2 (amended): once the path checks pass, only the steps inside the
`try` block — creating the output directory, opening/writing the output
file, rendering the template — have their exceptions caught, logged and
turned into exit status 1; `get_icons` and `get_template` run before the
`try` block, so (given they succeed, as hypothesised here) the process
never terminates via an unhandled exception, and any try-block failure
exits with the generic status 1. -/
theorem c2_amended (flags : Flags) (w : World) (icons : IconIndex)
    (hi : w.iconsExists = true) (ht : w.templateExists = true)
    (hx : get_icons w.relpathF w.files = some icons)
    (hl : w.templateLoad = Except.ok ()) :
    (∀ msg, (mainModel flags w).term ≠ Outcome.uncaught msg) ∧
    ((w.makedirsOk = false ∨ w.openOk = false ∨
        (∃ err, w.render icons (get_groups flags) = Except.error err) ∨
        w.writeOk = false) →
      (mainModel flags w).term = Outcome.exited 1 ∧
        (mainModel flags w).loggedError = true) := by
  have he := mainModel_past_checks flags w icons hi ht hx hl
  constructor
  · intro msg
    rw [he]
    cases hmk : w.makedirsOk <;> cases hop : w.openOk <;>
      rcases hrender : w.render icons (get_groups flags) with err | ok <;>
        cases hw : w.writeOk <;> simp [EX_OK]
  · intro hfail
    rw [he]
    cases hmk : w.makedirsOk
    · simp
    · cases hop : w.openOk
      · simp
      · rcases hrender : w.render icons (get_groups flags) with err | ok
        · simp
        · cases hw : w.writeOk
          · simp
          · exfalso
            rcases hfail with hbad | hbad | ⟨err, hbad⟩ | hbad
            · rw [hmk] at hbad; cases hbad
            · rw [hop] at hbad; cases hbad
            · rw [hrender] at hbad; cases hbad
            · rw [hw] at hbad; cases hbad

/-- Witness for `c2_amended`: a run over `a-s.svg` whose render step fails
is caught and exits with status 1, logging the error. -/
theorem c2_witness :
    (∀ msg, (mainModel ⟨false, false, false, false⟩ renderFailWorld).term ≠
      Outcome.uncaught msg) ∧
    ((renderFailWorld.makedirsOk = false ∨ renderFailWorld.openOk = false ∨
        (∃ err, renderFailWorld.render renderFailIcons
          (get_groups ⟨false, false, false, false⟩) = Except.error err) ∨
        renderFailWorld.writeOk = false) →
      (mainModel ⟨false, false, false, false⟩ renderFailWorld).term =
          Outcome.exited 1 ∧
        (mainModel ⟨false, false, false, false⟩ renderFailWorld).loggedError = true) :=
  c2_amended ⟨false, false, false, false⟩ renderFailWorld renderFailIcons
    rfl rfl (by decide) rfl

end IconPreview
